import Mathlib

/-!
Verification development for the Cognitive-Complexity-TS scoring engines.

The repository walks a TypeScript syntax tree and computes a "cognitive
complexity" score.  This file gives a shallow embedding of the two scoring
engines and of the name-resolution helpers, and settles the specification
claims against them.

Embedding conventions:
* a syntax node is a value of the inductive `Node`; keyword and punctuation
  tokens are `Node.token` values so that the token-level `getChildren()`
  walks of the source can be reproduced (`childrenTok`);
* the JavaScript exceptions (`UnreachableNodeState`, `UnexpectedNodeError`,
  an exhausted `throwingIterator`) are modelled by `Option`: `none` is a
  raised error, `some` a returned value;
* scores are `Int` (JavaScript numbers holding integer increments), so that
  non-negativity is a theorem rather than a typing artefact;
* functions named as in the source are translated from the source; the few
  helpers whose defining file is absent from the repository snapshot carry a
  doc comment starting with `Modelled from the spec:`.
-/

set_option linter.unusedVariables false
set_option linter.unreachableTactic false
set_option linter.unnecessarySeqFocus false
set_option linter.unusedTactic false

/-- Grammatical kind of a node, mirroring the subset of `ts.SyntaxKind`
inspected by the engines (statement/expression kinds plus the keyword and
punctuation tokens the engines step over). -/
inductive SynKind where
  | identifier
  | sourceFile
  | block
  | expressionStatement
  | ifStatement
  | whileStatement
  | doStatement
  | forStatement
  | forInStatement
  | forOfStatement
  | switchStatement
  | catchClause
  | conditionalExpression
  | binaryExpression
  | callExpression
  | newExpression
  | parenthesizedExpression
  | propertyAccessExpression
  | breakStatement
  | continueStatement
  | functionDeclaration
  | arrowFunction
  | functionExpression
  | methodDeclaration
  | classDeclaration
  | moduleDeclaration
  | ifKeyword
  | elseKeyword
  | whileKeyword
  | doKeyword
  | forKeyword
  | switchKeyword
  | catchKeyword
  | newKeyword
  | breakKeyword
  | continueKeyword
  | functionKeyword
  | classKeyword
  | namespaceKeyword
  | inKeyword
  | ofKeyword
  | openParenToken
  | closeParenToken
  | openBraceToken
  | closeBraceToken
  | semicolonToken
  | colonToken
  | questionToken
  | dotToken
  | equalsGreaterThanToken
  | endOfFileToken
  | ampersandAmpersandToken
  | barBarToken
  | plusToken
  | minusToken
  | lessThanToken
  deriving DecidableEq, BEq, Repr

/-- A syntax node.  Constructors mirror the grammatical shapes the engines
special-case; statement lists and argument lists are stored directly (the
parser's intermediate `SyntaxList` wrapper, which no inspected code path
distinguishes, is flattened away).  A binary operator is stored as the
`SynKind` of its operator token, which is what the engine compares. -/
inductive Node where
  | token (k : SynKind)
  | ident (name : String)
  | sourceFile (stmts : List Node)
  | block (stmts : List Node)
  | exprStmt (e : Node)
  | ifStmt (cond : Node) (thenB : Node) (elseB : Option Node)
  | whileStmt (cond : Node) (body : Node)
  | doStmt (body : Node) (cond : Node)
  | forStmt (init : Option Node) (cond : Option Node) (incr : Option Node) (body : Node)
  | forInStmt (init : Node) (expr : Node) (body : Node)
  | forOfStmt (init : Node) (expr : Node) (body : Node)
  | switchStmt (expr : Node) (cases : Node)
  | catchClause (decl : Option Node) (body : Node)
  | condExpr (cond : Node) (thenE : Node) (elseE : Node)
  | binaryExpr (lhs : Node) (op : SynKind) (rhs : Node)
  | callExpr (callee : Node) (args : List Node)
  | newExpr (callee : Node) (args : List Node)
  | parenExpr (e : Node)
  | propertyAccess (obj : Node) (prop : String)
  | breakStmt (label : Option String)
  | continueStmt (label : Option String)
  | functionDecl (name : String) (body : Node)
  | arrowFunction (body : Node)
  | funcExpr (name : Option String) (body : Node)
  | methodDecl (name : Option String) (body : Node)
  | classDecl (name : Option String) (members : List Node)
  | moduleDecl (name : Option String) (body : Node)

/-- The `node.kind` of a node. -/
def kindOf : Node → SynKind
  | .token k => k
  | .ident _ => .identifier
  | .sourceFile _ => .sourceFile
  | .block _ => .block
  | .exprStmt _ => .expressionStatement
  | .ifStmt _ _ _ => .ifStatement
  | .whileStmt _ _ => .whileStatement
  | .doStmt _ _ => .doStatement
  | .forStmt _ _ _ _ => .forStatement
  | .forInStmt _ _ _ => .forInStatement
  | .forOfStmt _ _ _ => .forOfStatement
  | .switchStmt _ _ => .switchStatement
  | .catchClause _ _ => .catchClause
  | .condExpr _ _ _ => .conditionalExpression
  | .binaryExpr _ _ _ => .binaryExpression
  | .callExpr _ _ => .callExpression
  | .newExpr _ _ => .newExpression
  | .parenExpr _ => .parenthesizedExpression
  | .propertyAccess _ _ => .propertyAccessExpression
  | .breakStmt _ => .breakStatement
  | .continueStmt _ => .continueStatement
  | .functionDecl _ _ => .functionDeclaration
  | .arrowFunction _ => .arrowFunction
  | .funcExpr _ _ => .functionExpression
  | .methodDecl _ _ => .methodDeclaration
  | .classDecl _ _ => .classDeclaration
  | .moduleDecl _ _ => .moduleDeclaration

/-- The ordered `getChildren()` list of a node, tokens included, as the
TypeScript parser produces it for these constructs (with `SyntaxList`
wrappers flattened into the parent's list). -/
def childrenTok : Node → List Node
  | .token _ => []
  | .ident _ => []
  | .sourceFile stmts => stmts ++ [.token .endOfFileToken]
  | .block stmts => .token .openBraceToken :: (stmts ++ [.token .closeBraceToken])
  | .exprStmt e => [e, .token .semicolonToken]
  | .ifStmt cond thenB elseB =>
      [.token .ifKeyword, .token .openParenToken, cond, .token .closeParenToken, thenB]
        ++ (match elseB with
            | some e => [.token .elseKeyword, e]
            | none => [])
  | .whileStmt cond body =>
      [.token .whileKeyword, .token .openParenToken, cond, .token .closeParenToken, body]
  | .doStmt body cond =>
      [.token .doKeyword, body, .token .whileKeyword, .token .openParenToken, cond,
        .token .closeParenToken, .token .semicolonToken]
  | .forStmt init cond incr body =>
      [Node.token .forKeyword, Node.token .openParenToken]
        ++ init.toList ++ [Node.token .semicolonToken]
        ++ cond.toList ++ [Node.token .semicolonToken]
        ++ incr.toList ++ [Node.token .closeParenToken, body]
  | .forInStmt init expr body =>
      [.token .forKeyword, .token .openParenToken, init, .token .inKeyword, expr,
        .token .closeParenToken, body]
  | .forOfStmt init expr body =>
      [.token .forKeyword, .token .openParenToken, init, .token .ofKeyword, expr,
        .token .closeParenToken, body]
  | .switchStmt expr cases =>
      [.token .switchKeyword, .token .openParenToken, expr, .token .closeParenToken, cases]
  | .catchClause decl body =>
      Node.token .catchKeyword
        :: ((match decl with
             | some d => [Node.token .openParenToken, d, Node.token .closeParenToken]
             | none => []) ++ [body])
  | .condExpr cond thenE elseE =>
      [cond, .token .questionToken, thenE, .token .colonToken, elseE]
  | .binaryExpr lhs op rhs => [lhs, .token op, rhs]
  | .callExpr callee args =>
      callee :: (Node.token .openParenToken :: (args ++ [Node.token .closeParenToken]))
  | .newExpr callee args =>
      .token .newKeyword :: (callee :: (Node.token .openParenToken
        :: (args ++ [Node.token .closeParenToken])))
  | .parenExpr e => [.token .openParenToken, e, .token .closeParenToken]
  | .propertyAccess obj prop => [obj, .token .dotToken, .ident prop]
  | .breakStmt label =>
      Node.token .breakKeyword
        :: ((match label with | some l => [Node.ident l] | none => [])
              ++ [Node.token .semicolonToken])
  | .continueStmt label =>
      Node.token .continueKeyword
        :: ((match label with | some l => [Node.ident l] | none => [])
              ++ [Node.token .semicolonToken])
  | .functionDecl name body =>
      [.token .functionKeyword, .ident name, .token .openParenToken,
        .token .closeParenToken, body]
  | .arrowFunction body =>
      [.token .openParenToken, .token .closeParenToken, .token .equalsGreaterThanToken, body]
  | .funcExpr name body =>
      Node.token .functionKeyword
        :: ((match name with | some n => [Node.ident n] | none => [])
              ++ [Node.token .openParenToken, Node.token .closeParenToken, body])
  | .methodDecl name body =>
      (match name with | some n => [Node.ident n] | none => [])
        ++ [Node.token .openParenToken, Node.token .closeParenToken, body]
  | .classDecl name members =>
      Node.token .classKeyword
        :: ((match name with | some n => [Node.ident n] | none => [])
              ++ (Node.token .openBraceToken :: (members ++ [Node.token .closeBraceToken])))
  | .moduleDecl name body =>
      Node.token .namespaceKeyword
        :: ((match name with | some n => [Node.ident n] | none => []) ++ [body])

/-- Kind of the i-th child of a node, `none` when the child does not exist
(the `?.kind` of the source). -/
def childKindAt (n : Node) (i : Nat) : Option SynKind :=
  ((childrenTok n)[i]?).map kindOf

/-- The `ts.isX` kind tests, one per construct the engines dispatch on. -/
def isIfStatement : Node → Bool
  | .ifStmt _ _ _ => true
  | _ => false

def isCatchClause : Node → Bool
  | .catchClause _ _ => true
  | _ => false

def isConditionalExpression : Node → Bool
  | .condExpr _ _ _ => true
  | _ => false

def isDoStatement : Node → Bool
  | .doStmt _ _ => true
  | _ => false

def isForInStatement : Node → Bool
  | .forInStmt _ _ _ => true
  | _ => false

def isForOfStatement : Node → Bool
  | .forOfStmt _ _ _ => true
  | _ => false

def isForStatement : Node → Bool
  | .forStmt _ _ _ _ => true
  | _ => false

def isSwitchStatement : Node → Bool
  | .switchStmt _ _ => true
  | _ => false

def isWhileStatement : Node → Bool
  | .whileStmt _ _ => true
  | _ => false

def isBinaryExpression : Node → Bool
  | .binaryExpr _ _ _ => true
  | _ => false

def isCallExpression : Node → Bool
  | .callExpr _ _ => true
  | _ => false

def isIdentifier : Node → Bool
  | .ident _ => true
  | _ => false

def isClassDeclaration : Node → Bool
  | .classDecl _ _ => true
  | _ => false

def isModuleDeclaration : Node → Bool
  | .moduleDecl _ _ => true
  | _ => false

def isArrowFunction : Node → Bool
  | .arrowFunction _ => true
  | _ => false

def isFunctionDeclaration : Node → Bool
  | .functionDecl _ _ => true
  | _ => false

def isFunctionExpression : Node → Bool
  | .funcExpr _ _ => true
  | _ => false

def isMethodDeclaration : Node → Bool
  | .methodDecl _ _ => true
  | _ => false

/-- Break/continue statement that names a target label: the source scans the
node's children for an identifier; in this embedding the label is the only
possible identifier child of a break/continue statement. -/
def isBreakOrContinueToLabel : Node → Bool
  | .breakStmt label => label.isSome
  | .continueStmt label => label.isSome
  | _ => false

/-- Modelled from the spec: `isFunctionNode` is defined in
`node-inspection.ts`, which is absent from the snapshot (only callers are
present).  §4.1: function-like nodes are function declarations, function
expressions, arrow functions, methods and accessors; accessors have no
constructor in this embedding's node space. -/
def isFunctionNode (n : Node) : Bool :=
  isFunctionDeclaration n || isFunctionExpression n || isArrowFunction n
    || isMethodDeclaration n

/-- Modelled from the spec: the Child Partitioner `whereAreChildren`
(`depth.ts`) is not under src/.  §4.3: for loop constructs every child is
scored at the loop's own depth; for branching constructs (if/else,
conditional expression, do/while, switch) the controlling condition or
discriminant stays in the `same` bucket while the executed
body/branch/case-list moves `below`; for plain nodes all children are
`same`.  Function, class and module bodies are the "anything inside them" of
§4.4's top-level rule and go `below`.  Keyword and punctuation tokens, which
carry no score and no inner containers, are omitted from the buckets. -/
def whereAreChildren : Node → List Node × List Node
  | .token _ => ([], [])
  | .ident _ => ([], [])
  | .sourceFile stmts => (stmts, [])
  | .block stmts => (stmts, [])
  | .exprStmt e => ([e], [])
  | .ifStmt cond thenB elseB => ([cond], thenB :: elseB.toList)
  | .whileStmt cond body => ([cond], [body])
  | .doStmt body cond => ([cond], [body])
  | .forStmt init cond incr body =>
      (init.toList ++ cond.toList ++ incr.toList ++ [body], [])
  | .forInStmt init expr body => ([init, expr, body], [])
  | .forOfStmt init expr body => ([init, expr, body], [])
  | .switchStmt expr cases => ([expr], [cases])
  | .catchClause decl body => (decl.toList ++ [body], [])
  | .condExpr cond thenE elseE => ([cond], [thenE, elseE])
  | .binaryExpr lhs _ rhs => ([lhs, rhs], [])
  | .callExpr callee args => (callee :: args, [])
  | .newExpr callee args => (callee :: args, [])
  | .parenExpr e => ([e], [])
  | .propertyAccess obj prop => ([obj, .ident prop], [])
  | .breakStmt label => ((label.map Node.ident).toList, [])
  | .continueStmt label => ((label.map Node.ident).toList, [])
  | .functionDecl _ body => ([], [body])
  | .arrowFunction body => ([], [body])
  | .funcExpr _ body => ([], [body])
  | .methodDecl _ body => ([], [body])
  | .classDecl _ members => ([], members)
  | .moduleDecl _ body => ([], [body])

mutual

/-- Structural weight used as the termination measure for the engines'
recursions: every node weighs at least 1 and strictly outweighs each of its
`getChildren()` lists. -/
def Node.w : Node → Nat
  | .token _ => 1
  | .ident _ => 1
  | .sourceFile stmts => 2 + Node.wList stmts
  | .block stmts => 3 + Node.wList stmts
  | .exprStmt e => 2 + Node.w e
  | .ifStmt cond thenB elseB => 6 + Node.w cond + Node.w thenB + Node.wOpt elseB
  | .whileStmt cond body => 6 + Node.w cond + Node.w body
  | .doStmt body cond => 7 + Node.w body + Node.w cond
  | .forStmt init cond incr body =>
      8 + Node.wOpt init + Node.wOpt cond + Node.wOpt incr + Node.w body
  | .forInStmt init expr body => 6 + Node.w init + Node.w expr + Node.w body
  | .forOfStmt init expr body => 6 + Node.w init + Node.w expr + Node.w body
  | .switchStmt expr cases => 6 + Node.w expr + Node.w cases
  | .catchClause decl body => 5 + Node.wOpt decl + Node.w body
  | .condExpr cond thenE elseE => 4 + Node.w cond + Node.w thenE + Node.w elseE
  | .binaryExpr lhs _ rhs => 3 + Node.w lhs + Node.w rhs
  | .callExpr callee args => 4 + Node.w callee + Node.wList args
  | .newExpr callee args => 5 + Node.w callee + Node.wList args
  | .parenExpr e => 4 + Node.w e
  | .propertyAccess obj _ => 4 + Node.w obj
  | .breakStmt _ => 5
  | .continueStmt _ => 5
  | .functionDecl _ body => 7 + Node.w body
  | .arrowFunction body => 5 + Node.w body
  | .funcExpr _ body => 8 + Node.w body
  | .methodDecl _ body => 7 + Node.w body
  | .classDecl _ members => 7 + Node.wList members
  | .moduleDecl _ body => 4 + Node.w body

/-- Weight of a list of nodes. -/
def Node.wList : List Node → Nat
  | [] => 0
  | c :: cs => Node.w c + Node.wList cs

/-- Weight of an optional node. -/
def Node.wOpt : Option Node → Nat
  | none => 1
  | some x => 1 + Node.w x

end

theorem Node.wList_append (l1 l2 : List Node) :
    Node.wList (l1 ++ l2) = Node.wList l1 + Node.wList l2 := by
  induction l1 with
  | nil => simp [Node.wList]
  | cons c cs ih => simp [Node.wList, ih]; omega

theorem Node.w_pos (n : Node) : 1 ≤ Node.w n := by
  cases n <;> simp [Node.w] <;> omega

theorem Node.wList_mem_le {c : Node} {l : List Node} (h : c ∈ l) :
    Node.w c ≤ Node.wList l := by
  induction l with
  | nil => cases h
  | cons x xs ih =>
      rcases List.mem_cons.mp h with h1 | h2
      · subst h1; simp [Node.wList]
      · have := ih h2; simp [Node.wList]; omega

theorem childrenTok_w_lt (n : Node) : Node.wList (childrenTok n) < Node.w n := by
  cases n with
  | token k => simp [childrenTok, Node.w, Node.wList]
  | ident s => simp [childrenTok, Node.w, Node.wList]
  | sourceFile stmts =>
      simp [childrenTok, Node.w, Node.wList, Node.wList_append] <;> omega
  | block stmts =>
      simp [childrenTok, Node.w, Node.wList, Node.wList_append] <;> omega
  | exprStmt e => simp [childrenTok, Node.w, Node.wList] <;> omega
  | ifStmt c t e =>
      cases e <;> simp [childrenTok, Node.w, Node.wList, Node.wOpt, Node.wList_append] <;> omega
  | whileStmt c b => simp [childrenTok, Node.w, Node.wList] <;> omega
  | doStmt b c => simp [childrenTok, Node.w, Node.wList] <;> omega
  | forStmt i c u b =>
      cases i <;> cases c <;> cases u <;>
        simp [childrenTok, Node.w, Node.wList, Node.wOpt, Node.wList_append, Option.toList] <;>
        omega
  | forInStmt a e b => simp [childrenTok, Node.w, Node.wList] <;> omega
  | forOfStmt a e b => simp [childrenTok, Node.w, Node.wList] <;> omega
  | switchStmt e cs => simp [childrenTok, Node.w, Node.wList] <;> omega
  | catchClause d b =>
      cases d <;> simp [childrenTok, Node.w, Node.wList, Node.wOpt, Node.wList_append] <;> omega
  | condExpr c t e => simp [childrenTok, Node.w, Node.wList] <;> omega
  | binaryExpr l op r => simp [childrenTok, Node.w, Node.wList] <;> omega
  | callExpr f args =>
      simp [childrenTok, Node.w, Node.wList, Node.wList_append] <;> omega
  | newExpr f args =>
      simp [childrenTok, Node.w, Node.wList, Node.wList_append] <;> omega
  | parenExpr e => simp [childrenTok, Node.w, Node.wList] <;> omega
  | propertyAccess o p => simp [childrenTok, Node.w, Node.wList] <;> omega
  | breakStmt l =>
      cases l <;> simp [childrenTok, Node.w, Node.wList, Node.wList_append] <;> omega
  | continueStmt l =>
      cases l <;> simp [childrenTok, Node.w, Node.wList, Node.wList_append] <;> omega
  | functionDecl nm b => simp [childrenTok, Node.w, Node.wList] <;> omega
  | arrowFunction b => simp [childrenTok, Node.w, Node.wList] <;> omega
  | funcExpr nm b =>
      cases nm <;> simp [childrenTok, Node.w, Node.wList, Node.wList_append] <;> omega
  | methodDecl nm b =>
      cases nm <;> simp [childrenTok, Node.w, Node.wList, Node.wList_append] <;> omega
  | classDecl nm ms =>
      cases nm <;> simp [childrenTok, Node.w, Node.wList, Node.wList_append] <;> omega
  | moduleDecl nm b =>
      cases nm <;> simp [childrenTok, Node.w, Node.wList, Node.wList_append] <;> omega

theorem whereAreChildren_w (n : Node) :
    Node.wList (whereAreChildren n).1 + Node.wList (whereAreChildren n).2 < Node.w n := by
  cases n with
  | token k => simp [whereAreChildren, Node.w, Node.wList]
  | ident s => simp [whereAreChildren, Node.w, Node.wList]
  | sourceFile stmts => simp [whereAreChildren, Node.w, Node.wList] <;> omega
  | block stmts => simp [whereAreChildren, Node.w, Node.wList] <;> omega
  | exprStmt e => simp [whereAreChildren, Node.w, Node.wList] <;> omega
  | ifStmt c t e =>
      cases e <;> simp [whereAreChildren, Node.w, Node.wList, Node.wOpt, Option.toList] <;> omega
  | whileStmt c b => simp [whereAreChildren, Node.w, Node.wList] <;> omega
  | doStmt b c => simp [whereAreChildren, Node.w, Node.wList] <;> omega
  | forStmt i c u b =>
      cases i <;> cases c <;> cases u <;>
        simp [whereAreChildren, Node.w, Node.wList, Node.wOpt, Node.wList_append,
          Option.toList] <;> omega
  | forInStmt a e b => simp [whereAreChildren, Node.w, Node.wList] <;> omega
  | forOfStmt a e b => simp [whereAreChildren, Node.w, Node.wList] <;> omega
  | switchStmt e cs => simp [whereAreChildren, Node.w, Node.wList] <;> omega
  | catchClause d b =>
      cases d <;> simp [whereAreChildren, Node.w, Node.wList, Node.wOpt, Node.wList_append,
        Option.toList] <;> omega
  | condExpr c t e => simp [whereAreChildren, Node.w, Node.wList] <;> omega
  | binaryExpr l op r => simp [whereAreChildren, Node.w, Node.wList] <;> omega
  | callExpr f args => simp [whereAreChildren, Node.w, Node.wList] <;> omega
  | newExpr f args => simp [whereAreChildren, Node.w, Node.wList] <;> omega
  | parenExpr e => simp [whereAreChildren, Node.w, Node.wList] <;> omega
  | propertyAccess o p => simp [whereAreChildren, Node.w, Node.wList] <;> omega
  | breakStmt l =>
      cases l <;> simp [whereAreChildren, Node.w, Node.wList, Option.toList] <;> omega
  | continueStmt l =>
      cases l <;> simp [whereAreChildren, Node.w, Node.wList, Option.toList] <;> omega
  | functionDecl nm b => simp [whereAreChildren, Node.w, Node.wList] <;> omega
  | arrowFunction b => simp [whereAreChildren, Node.w, Node.wList] <;> omega
  | funcExpr nm b => simp [whereAreChildren, Node.w, Node.wList] <;> omega
  | methodDecl nm b => simp [whereAreChildren, Node.w, Node.wList] <;> omega
  | classDecl nm ms => simp [whereAreChildren, Node.w, Node.wList] <;> omega
  | moduleDecl nm b => simp [whereAreChildren, Node.w, Node.wList] <;> omega

/-- Text of an identifier node (`getText()` restricted to identifiers, the
only nodes whose text the inspected code paths read). -/
def identText : Node → String
  | .ident s => s
  | _ => ""

/-- Modelled from the spec: `getIdentifier` (node-inspection.ts) is absent
from the snapshot; per §4.2 it yields the text of the node's identifier
child when one is present. -/
def getIdentifier : Node → Option String
  | .ident s => some s
  | .funcExpr name _ => name
  | .methodDecl name _ => name
  | .classDecl name _ => name
  | .moduleDecl name _ => name
  | _ => none

/-- Unwraps redundant parentheses around an identifier: an identifier gives
its text, a parenthesized expression recurses into `getChildAt(1)` (its
inner expression), anything else gives `undefined` (`none`). -/
def getIdentifierDespiteBrackets (node : Node) : Option String :=
  match node with
  | .ident s => some s
  | .parenExpr inner => getIdentifierDespiteBrackets inner
  | _ => none

/-- Name of a call's target: `getIdentifierDespiteBrackets` applied to
`children[0]` (the expression being called), with `""` as the fallback for
an unresolvable callee (`name ?? ""`). -/
def getCalledFunctionName (node : Node) : String :=
  match (childrenTok node)[0]? with
  | some expressionToCall => (getIdentifierDespiteBrackets expressionToCall).getD ""
  | none => ""

/-- Name of a `new` expression's constructor: `getIdentifierDespiteBrackets`
applied to `getChildAt(1)`; an unresolvable constructor raises
`UnreachableNodeState` (`none`). -/
def getNewedConstructorName (node : Node) : Option String :=
  match (childrenTok node)[1]? with
  | some c => getIdentifierDespiteBrackets c
  | none => none

/-- Name of a class declaration: its identifier, or `""` for an anonymous
class. -/
def getClassDeclarationName (node : Node) : String :=
  (getIdentifier node).getD ""

/-- Name of a module declaration: its identifier child; a module declaration
with no identifier raises `UnreachableNodeState` (`none`). -/
def getModuleDeclarationName (node : Node) : Option String :=
  match (childrenTok node).find? (fun c => isIdentifier c) with
  | some moduleIdentifier => some (identText moduleIdentifier)
  | none => none

/-- Name of a function-like node.  Mirrors the source dispatch: an arrow
function takes the `variableBeingDefined` hint (or `""`), a function
declaration takes the identifier following its `function` keyword, a
function expression takes its own identifier else the hint (or `""`), a
method takes its identifier and raises `UnreachableNodeState` (`none`) when
it has none; an unrecognised shape also raises (`none`). -/
def getFunctionNodeName (func : Node) (variableBeingDefined : Option String) : Option String :=
  match func with
  | .arrowFunction _ => some (variableBeingDefined.getD "")
  | .functionDecl name _ => some name
  | .funcExpr maybeName _ =>
      match maybeName with
      | some n => some n
      | none => some (variableBeingDefined.getD "")
  | .methodDecl name body =>
      match getIdentifier (.methodDecl name body) with
      | some n => some n
      | none => none
  | _ => none

/-- Modelled from the spec: `isNamedDeclarationOfContainer`
(node-inspection.ts) is absent from the snapshot.  §4.4 step 4 appends the
node's resolved name when it is a container-introducing declaration with a
resolvable name; in this embedding's node space those are named class and
module declarations. -/
def isNamedDeclarationOfContainer : Node → Bool
  | .classDecl (some _) _ => true
  | .moduleDecl (some _) _ => true
  | _ => false

/-- Modelled from the spec: `getDeclarationName` (node-inspection.ts) is
absent from the snapshot; it resolves the name of a node accepted by
`isNamedDeclarationOfContainer`. -/
def getDeclarationName : Node → String
  | .classDecl (some n) _ => n
  | .moduleDecl (some n) _ => n
  | _ => ""

/-- Extends the named-ancestor context for a node's children: a named
container declaration appends its declaration name; a function-like node
appends its resolved name when that name is non-empty (resolution may raise,
e.g. for a method with no identifier); otherwise the context passes through
unchanged. -/
def maybeAddNodeToNamedAncestors (node : Node) (ancestorsOfNode : List String) :
    Option (List String) :=
  if isNamedDeclarationOfContainer node then
    some (ancestorsOfNode ++ [getDeclarationName node])
  else if isFunctionNode node then
    match getFunctionNodeName node none with
    | none => none
    | some nodeNameIfCallable =>
        if nodeNameIfCallable.length ≠ 0 then
          some (ancestorsOfNode ++ [nodeNameIfCallable])
        else
          some ancestorsOfNode
  else
    some ancestorsOfNode

/-- Solo-`else` increment of an `if` statement (source lines 80-88): find
the `else` keyword among the children; when the child after it is not an
`if` statement the `else` is a solo terminating `else` and adds 1.  (An
`else` keyword is always followed by its branch, so the missing-next-child
branch is unreachable.) -/
def soloElseIncrement (node : Node) : Int :=
  match (childrenTok node).findIdx? (fun child => decide (kindOf child = SynKind.elseKeyword)) with
  | some elseIndex =>
      match (childrenTok node)[elseIndex + 1]? with
      | some next => if isIfStatement next then 0 else 1
      | none => 1
  | none => 0

/-- Inherent increment of a node (source lines 46-89): 1 for the listed
control-flow constructs and labeled jumps; 1 for a binary expression whose
parent's `getChildAt(1)` kind differs from its own operator kind; for a call
expression, 1 when the resolved callee name matches a named ancestor
(scanning until the first match); for an `if` (and hence also an `else if`),
1 plus the solo-`else` increment. -/
def inherentIncrement (node parent : Node) (namedAncestors : List String) : Int :=
  if isCatchClause node || isConditionalExpression node || isDoStatement node
      || isForInStatement node || isForOfStatement node || isForStatement node
      || isSwitchStatement node || isWhileStatement node
      || isBreakOrContinueToLabel node then
    1
  else if isBinaryExpression node && decide (childKindAt parent 1 ≠ childKindAt node 1) then
    1
  else if isCallExpression node then
    if namedAncestors.contains (getCalledFunctionName node) then 1 else 0
  else if isIfStatement node then
    1 + soloElseIncrement node
  else
    0

/-- Nesting increment of a node (source lines 91-115): when `depth > 0`,
`depth` for the listed constructs and for an `if` whose parent is not itself
an `if` statement; 0 otherwise. -/
def nestingIncrement (node parent : Node) (depth : Nat) : Int :=
  if 0 < depth then
    if isCatchClause node || isConditionalExpression node || isDoStatement node
        || isForInStatement node || isForOfStatement node || isForStatement node
        || isSwitchStatement node || isWhileStatement node
        || (isIfStatement node && !(isIfStatement parent)) then
      (depth : Int)
    else
      0
  else
    0

/-- Name-resolution effects of the inner-container bookkeeping of
`aggregateScoreAndInnerForChildren` (source lines 133-153): a function child
has its name resolved with the last named ancestor as hint, a module child
has its module name resolved; either may raise.  The `inner` list itself
carries no score and is not tracked. -/
def resolveInnerName (child : Node) (namedAncestorsOfChildren : List String) : Option Unit :=
  if isFunctionNode child then
    match getFunctionNodeName child namedAncestorsOfChildren.getLast? with
    | some _ => some ()
    | none => none
  else if isClassDeclaration child then
    some ()
  else if isModuleDeclaration child then
    match getModuleDeclarationName child with
    | some _ => some ()
    | none => none
  else
    some ()

mutual

/-- Score of `nodeCost` (source lines 27-173).  The returned score is the
node's inherent increment plus its nesting increment plus the aggregated
scores of its children: the `same` bucket of `whereAreChildren` is scored at
the current depth and the `below` bucket at `depth + 1`, except that the
top-level call keeps both buckets at the current depth, preserving
`topLevel` for the `same` bucket and clearing it for the `below` bucket.
The `inner` output of the source carries no score and is modelled only
through the name resolutions it performs (`resolveInnerName`), which can
raise; `none` is a raised `UnreachableNodeState`. -/
def nodeCost (node parent : Node) (topLevel : Bool) (depth : Nat)
    (namedAncestors : List String) : Option Int :=
  (maybeAddNodeToNamedAncestors node namedAncestors).bind (fun namedAncestorsOfChildren =>
    (if topLevel then
        (aggregateScoreForChildren (whereAreChildren node).1 node depth topLevel
            namedAncestorsOfChildren).bind (fun s1 =>
          (aggregateScoreForChildren (whereAreChildren node).2 node depth false
              namedAncestorsOfChildren).bind (fun s2 =>
            some (s1 + s2)))
      else
        (aggregateScoreForChildren (whereAreChildren node).1 node depth false
            namedAncestorsOfChildren).bind (fun s1 =>
          (aggregateScoreForChildren (whereAreChildren node).2 node (depth + 1) false
              namedAncestorsOfChildren).bind (fun s2 =>
            some (s1 + s2)))).bind (fun childrenScore =>
      some (inherentIncrement node parent namedAncestors
        + nestingIncrement node parent depth + childrenScore)))
termination_by 3 * Node.w node + 1
decreasing_by
  all_goals first
    | (have h := whereAreChildren_w node; omega)
    | (simp [Node.wList]; have h := Node.w_pos node; omega)

/-- Score of `aggregateScoreAndInnerForChildren` (source lines 127-155):
each child is scored by `nodeCost` with the current node as its parent, then
the inner-container naming for the child runs (and may raise), and the
scores are summed. -/
def aggregateScoreForChildren (nodesInsideNode : List Node) (parentNode : Node)
    (localDepth : Nat) (topLevel : Bool) (namedAncestorsOfChildren : List String) :
    Option Int :=
  match nodesInsideNode with
  | [] => some 0
  | child :: rest =>
      (nodeCost child parentNode topLevel localDepth namedAncestorsOfChildren).bind
        (fun childScore =>
          (resolveInnerName child namedAncestorsOfChildren).bind (fun _ =>
            (aggregateScoreForChildren rest parentNode localDepth topLevel
                namedAncestorsOfChildren).bind (fun restScore =>
              some (childScore + restScore))))
termination_by 3 * Node.wList nodesInsideNode + 2
decreasing_by
  all_goals simp [Node.wList]
  · omega
  · have h := Node.w_pos c; omega

end

/-- Sum of top-level child scores: the `map` over `nodeCost(elem, true)`
followed by `reduce(sum, 0)` of `fileCost`, computed in one pass. -/
def sumTopChildScores : List Node → Node → Option Int
  | [], _ => some 0
  | elem :: rest, file =>
      (nodeCost elem file true 0 []).bind (fun s1 =>
        (sumTopChildScores rest file).bind (fun s2 => some (s1 + s2)))

/-- Score of `fileCost` (source lines 8-25): every child of the file node is
scored by `nodeCost` with `topLevel = true` (depth 0, empty ancestor
context) and the scores are summed; the `inner` concatenation carries no
score. -/
def fileCost (file : Node) : Option Int :=
  sumTopChildScores (childrenTok file) file

mutual

/-- Score of the older engine's `NodeCost.calculate`
(cognitive-complexity.ts lines 90-177): its own inherent and nesting
increments (note the different rule tables: `if` is inherently costly and
nesting-eligible unconditionally, `do` is neither, `catch` is inherent but
not nesting-eligible, and there is no binary/call/solo-`else` handling),
plus the child aggregation of the per-construct dispatch.  The first
dispatch branch (loops, and function-likes at non-zero depth) has an empty
body in the source, so those children are never visited. -/
def oldNodeCostScore (node : Node) (depth : Nat) : Option Int :=
  let inherent : Int :=
    if isCatchClause node || isConditionalExpression node || isForInStatement node
        || isForOfStatement node || isForStatement node || isIfStatement node
        || isSwitchStatement node || isWhileStatement node
        || isBreakOrContinueToLabel node then 1 else 0
  let nesting : Int :=
    if 0 < depth then
      if isConditionalExpression node || isForInStatement node || isForOfStatement node
          || isForStatement node || isIfStatement node || isSwitchStatement node
          || isWhileStatement node then (depth : Int) else 0
    else 0
  (if isForInStatement node || isForOfStatement node || isForStatement node
      || (depth != 0 && (isArrowFunction node || isFunctionDeclaration node
            || isFunctionExpression node || isMethodDeclaration node)) then
    some (0 : Int)
  else if isCatchClause node then
    oldIncludeAll (childrenTok node) (depth + 1)
  else if isConditionalExpression node then
    oldConditionalExpressionCost node depth
  else if isDoStatement node then
    oldDoStatementCost node depth
  else if isIfStatement node then
    oldIfStatementCost node depth
  else if isSwitchStatement node then
    oldSwitchStatementCost node depth
  else if isWhileStatement node then
    oldWhileStatementCost node depth
  else
    oldIncludeAll (childrenTok node) depth).bind (fun childScore =>
      some (inherent + nesting + childScore))
termination_by 3 * Node.w node + 1
decreasing_by
  all_goals first
    | (have h := childrenTok_w_lt node; omega)
    | omega

/-- Score of the older engine's `includeAll` (lines 79-83): each node of the
list contributes a `NodeCost` at the given depth. -/
def oldIncludeAll (nodes : List Node) (depth : Nat) : Option Int :=
  match nodes with
  | [] => some 0
  | c :: cs =>
      (oldNodeCostScore c depth).bind (fun s1 =>
        (oldIncludeAll cs depth).bind (fun s2 => some (s1 + s2)))
termination_by 3 * Node.wList nodes + 2
decreasing_by
  all_goals simp [Node.wList]
  · omega
  · have h := Node.w_pos c; omega

/-- Score of `ConditionalExpressionCost.calculate` (lines 179-211): the loop
calls `childNodesToAggregate.push()` with no argument, so the accumulator
never receives a node and every `includeAll` call gets the empty list. -/
def oldConditionalExpressionCost (node : Node) (depth : Nat) : Option Int :=
  oldIncludeAll [] depth
termination_by 3 * Node.w node
decreasing_by
  all_goals (have h := Node.w_pos node; simp [Node.wList]; omega)

/-- Score of `DoStatementCost.calculate` (lines 213-235).  Iterator trace
over `getChildren() = [do, body, while, (, cond, ), ;]`: the `do` keyword is
checked, the body is included at `depth + 1`, the `while` keyword and open
parenthesis are consumed, the condition is included at `depth`.  A first
child other than the `do` keyword raises `UnexpectedNodeError`; only a do
statement starts with one. -/
def oldDoStatementCost (node : Node) (depth : Nat) : Option Int :=
  match node with
  | .doStmt body cond =>
      (oldNodeCostScore body (depth + 1)).bind (fun s1 =>
        (oldNodeCostScore cond depth).bind (fun s2 => some (s1 + s2)))
  | _ => none
termination_by 3 * Node.w node
decreasing_by
  all_goals (simp [Node.w]; omega)

/-- Score of `IfStatementCost.calculate` (lines 237-264).  Iterator trace
over `[if, (, cond, ), then]` (plus `[else, branch]`): the `if` iteration
consumes the open parenthesis and includes the condition at `depth`; the
close-parenthesis iteration includes the then-branch at `depth + 1`; the
`else` iteration includes the else-branch at `depth + 1` and breaks.  With
no `else` the loop runs the iterator past the last child and the throwing
iterator raises, discarding the accumulated score; a non-if node raises
`UnexpectedNodeError` at the first iteration. -/
def oldIfStatementCost (node : Node) (depth : Nat) : Option Int :=
  match node with
  | .ifStmt cond thenB (some elseB) =>
      (oldNodeCostScore cond depth).bind (fun s1 =>
        (oldNodeCostScore thenB (depth + 1)).bind (fun s2 =>
          (oldNodeCostScore elseB (depth + 1)).bind (fun s3 =>
            some (s1 + s2 + s3))))
  | .ifStmt cond thenB none =>
      (oldNodeCostScore cond depth).bind (fun _ =>
        (oldNodeCostScore thenB (depth + 1)).bind (fun _ => none))
  | _ => none
termination_by 3 * Node.w node
decreasing_by
  all_goals (simp [Node.w, Node.wOpt]; omega)

/-- Score of `SwitchStatementCost.calculate` (lines 266-284): the `switch`
keyword and open parenthesis are consumed, the discriminant is included at
`depth`, the close parenthesis is consumed and the case block is included at
`depth + 1`. -/
def oldSwitchStatementCost (node : Node) (depth : Nat) : Option Int :=
  match node with
  | .switchStmt expr cases =>
      (oldNodeCostScore expr depth).bind (fun s1 =>
        (oldNodeCostScore cases (depth + 1)).bind (fun s2 => some (s1 + s2)))
  | _ => none
termination_by 3 * Node.w node
decreasing_by
  all_goals (simp [Node.w]; omega)

/-- Score of `WhileStatementCost.calculate` (lines 286-309).  The source
chains `} if (` instead of `} else if (`: in the `while`-keyword iteration
the condition is included, and then the same child is tested against the
close-parenthesis check, whose `else` branch raises `UnexpectedNodeError` —
so every while statement raises after scoring its condition. -/
def oldWhileStatementCost (node : Node) (depth : Nat) : Option Int :=
  match node with
  | .whileStmt cond _ =>
      (oldNodeCostScore cond depth).bind (fun _ => none)
  | _ => none
termination_by 3 * Node.w node
decreasing_by
  all_goals (simp [Node.w]; omega)

end

mutual

/-- Score of the older engine's `calcElemCost` (lines 16-40): the sum of the
recursive `calcElemCost` of every `getChildren()` child plus a fresh
`NodeCost` of the node itself.  The recursive calls pass no depth, so every
`NodeCost` here is constructed at depth 0. -/
def calcElemCostScore (node : Node) : Option Int :=
  (calcListScore (childrenTok node)).bind (fun childSum =>
    (oldNodeCostScore node 0).bind (fun nc => some (childSum + nc)))
termination_by 3 * Node.w node + 1
decreasing_by
  all_goals (have h := childrenTok_w_lt node; omega)

/-- Sum of `calcElemCostScore` over a list of children. -/
def calcListScore (nodes : List Node) : Option Int :=
  match nodes with
  | [] => some 0
  | c :: cs =>
      (calcElemCostScore c).bind (fun s1 =>
        (calcListScore cs).bind (fun s2 => some (s1 + s2)))
termination_by 3 * Node.wList nodes + 2
decreasing_by
  all_goals simp [Node.wList]
  · omega
  · have h := Node.w_pos c; omega

end

/-- Score of the older engine's `calcFileCost` (lines 42-56): the sum of
`calcElemCost` over the file's children. -/
def calcFileCost (file : Node) : Option Int :=
  calcListScore (childrenTok file)

mutual

/-- Fuel-indexed evaluator agreeing with `nodeCost` whenever the fuel covers
the node's weight (`nodeCostFuel_agrees`); being structural in the fuel, it
lets concrete engine runs be computed by kernel reduction. -/
def nodeCostFuel : Nat → Node → Node → Bool → Nat → List String → Option Int
  | 0, _, _, _, _, _ => none
  | fuel + 1, node, parent, topLevel, depth, namedAncestors =>
    (maybeAddNodeToNamedAncestors node namedAncestors).bind (fun anc2 =>
      (if topLevel then
          (aggregateFuel fuel (whereAreChildren node).1 node depth topLevel anc2).bind
            (fun s1 =>
              (aggregateFuel fuel (whereAreChildren node).2 node depth false anc2).bind
                (fun s2 => some (s1 + s2)))
        else
          (aggregateFuel fuel (whereAreChildren node).1 node depth false anc2).bind
            (fun s1 =>
              (aggregateFuel fuel (whereAreChildren node).2 node (depth + 1) false anc2).bind
                (fun s2 => some (s1 + s2)))).bind (fun childrenScore =>
        some (inherentIncrement node parent namedAncestors
          + nestingIncrement node parent depth + childrenScore)))

/-- Fuel-indexed evaluator for `aggregateScoreForChildren`. -/
def aggregateFuel : Nat → List Node → Node → Nat → Bool → List String → Option Int
  | 0, _, _, _, _, _ => none
  | _ + 1, [], _, _, _, _ => some 0
  | fuel + 1, child :: rest, parentNode, localDepth, topLevel, anc2 =>
      (nodeCostFuel fuel child parentNode topLevel localDepth anc2).bind (fun s1 =>
        (resolveInnerName child anc2).bind (fun _ =>
          (aggregateFuel fuel rest parentNode localDepth topLevel anc2).bind (fun s2 =>
            some (s1 + s2))))

end

theorem nodeCostFuel_mutual_agrees (fuel : Nat) :
    (∀ node parent topLevel depth anc, 3 * Node.w node + 1 ≤ fuel →
      nodeCostFuel fuel node parent topLevel depth anc
        = nodeCost node parent topLevel depth anc)
    ∧ (∀ l parentNode localDepth topLevel anc, 3 * Node.wList l + 2 ≤ fuel →
      aggregateFuel fuel l parentNode localDepth topLevel anc
        = aggregateScoreForChildren l parentNode localDepth topLevel anc) := by
  induction fuel with
  | zero =>
      constructor
      · intro node _ _ _ _ hle
        have h := Node.w_pos node
        omega
      · intro l _ _ _ _ hle
        omega
  | succ fuel ih =>
      obtain ⟨ihNode, ihAgg⟩ := ih
      constructor
      · intro node parent topLevel depth anc hle
        have hwlt := whereAreChildren_w node
        rw [nodeCost]
        cases hma : maybeAddNodeToNamedAncestors node anc with
        | none => simp [nodeCostFuel, hma]
        | some anc2 =>
            simp only [nodeCostFuel, hma, Option.some_bind]
            cases topLevel with
            | true =>
                simp only [if_true]
                rw [ihAgg (whereAreChildren node).1 node depth true anc2 (by omega),
                  ihAgg (whereAreChildren node).2 node depth false anc2 (by omega)]
            | false =>
                simp only [if_false, Bool.false_eq_true]
                rw [ihAgg (whereAreChildren node).1 node depth false anc2 (by omega),
                  ihAgg (whereAreChildren node).2 node (depth + 1) false anc2 (by omega)]
      · intro l parentNode localDepth topLevel anc hle
        cases l with
        | nil => rw [aggregateScoreForChildren]; simp [aggregateFuel]
        | cons child rest =>
            have hw : Node.wList (child :: rest) = Node.w child + Node.wList rest := rfl
            have hp := Node.w_pos child
            rw [aggregateScoreForChildren]
            simp only [aggregateFuel]
            rw [ihNode child parentNode topLevel localDepth anc (by omega),
              ihAgg rest parentNode localDepth topLevel anc (by omega)]

/-- With enough fuel, `nodeCostFuel` computes `nodeCost`. -/
theorem nodeCostFuel_agrees (fuel : Nat) (node parent : Node) (topLevel : Bool)
    (depth : Nat) (anc : List String) (h : 3 * Node.w node + 1 ≤ fuel) :
    nodeCostFuel fuel node parent topLevel depth anc
      = nodeCost node parent topLevel depth anc :=
  (nodeCostFuel_mutual_agrees fuel).1 node parent topLevel depth anc h

/-- Fuel-indexed evaluator for `sumTopChildScores`. -/
def sumTopChildScoresFuel (fuel : Nat) : List Node → Node → Option Int
  | [], _ => some 0
  | elem :: rest, file =>
      (nodeCostFuel fuel elem file true 0 []).bind (fun s1 =>
        (sumTopChildScoresFuel fuel rest file).bind (fun s2 => some (s1 + s2)))

/-- Fuel-indexed evaluator for `fileCost`. -/
def fileCostFuel (fuel : Nat) (file : Node) : Option Int :=
  sumTopChildScoresFuel fuel (childrenTok file) file

theorem sumTopChildScoresFuel_agrees (fuel : Nat) (l : List Node) (file : Node)
    (h : ∀ e ∈ l, 3 * Node.w e + 1 ≤ fuel) :
    sumTopChildScoresFuel fuel l file = sumTopChildScores l file := by
  induction l with
  | nil => rfl
  | cons elem rest ih =>
      have h1 : 3 * Node.w elem + 1 ≤ fuel := h elem (List.mem_cons_self elem rest)
      have h2 : ∀ e ∈ rest, 3 * Node.w e + 1 ≤ fuel := fun e he =>
        h e (List.mem_cons_of_mem elem he)
      simp only [sumTopChildScoresFuel, sumTopChildScores]
      rw [nodeCostFuel_agrees fuel elem file true 0 [] h1, ih h2]

/-- With fuel at least the file's weight (which bounds every child weight),
`fileCostFuel` computes `fileCost`. -/
theorem fileCostFuel_agrees (fuel : Nat) (file : Node)
    (h : 3 * Node.w file + 1 ≤ fuel) : fileCostFuel fuel file = fileCost file := by
  unfold fileCostFuel fileCost
  apply sumTopChildScoresFuel_agrees
  intro e he
  have h1 := Node.wList_mem_le he
  have h2 := childrenTok_w_lt file
  omega

theorem soloElseIncrement_nonneg (n : Node) : 0 ≤ soloElseIncrement n := by
  unfold soloElseIncrement
  repeat' split
  all_goals norm_num

theorem inherentIncrement_nonneg (n p : Node) (anc : List String) :
    0 ≤ inherentIncrement n p anc := by
  have h := soloElseIncrement_nonneg n
  unfold inherentIncrement
  repeat' split
  all_goals omega

theorem nestingIncrement_nonneg (n p : Node) (d : Nat) : 0 ≤ nestingIncrement n p d := by
  unfold nestingIncrement
  repeat' split
  all_goals omega

theorem nodeCostFuel_nonneg (fuel : Nat) :
    (∀ node parent topLevel depth anc s,
      nodeCostFuel fuel node parent topLevel depth anc = some s → 0 ≤ s)
    ∧ (∀ l parentNode localDepth topLevel anc s,
      aggregateFuel fuel l parentNode localDepth topLevel anc = some s → 0 ≤ s) := by
  induction fuel with
  | zero =>
      constructor
      · intro node parent topLevel depth anc s h
        simp [nodeCostFuel] at h
      · intro l parentNode localDepth topLevel anc s h
        simp [aggregateFuel] at h
  | succ fuel ih =>
      obtain ⟨ihNode, ihAgg⟩ := ih
      constructor
      · intro node parent topLevel depth anc s h
        simp only [nodeCostFuel] at h
        cases hma : maybeAddNodeToNamedAncestors node anc with
        | none => rw [hma] at h; simp at h
        | some anc2 =>
            rw [hma] at h
            simp only [Option.some_bind] at h
            have hinh := inherentIncrement_nonneg node parent anc
            have hnest := nestingIncrement_nonneg node parent depth
            cases topLevel with
            | true =>
                simp only [if_true] at h
                cases h1 : aggregateFuel fuel (whereAreChildren node).1 node depth true anc2 with
                | none => rw [h1] at h; simp at h
                | some v1 =>
                    rw [h1] at h
                    simp only [Option.some_bind] at h
                    cases h2 : aggregateFuel fuel (whereAreChildren node).2 node depth false anc2 with
                    | none => rw [h2] at h; simp at h
                    | some v2 =>
                        rw [h2] at h
                        simp only [Option.some_bind] at h
                        have hv1 := ihAgg _ _ _ _ _ _ h1
                        have hv2 := ihAgg _ _ _ _ _ _ h2
                        rw [Option.some_inj] at h
                        omega
            | false =>
                simp only [Bool.false_eq_true, if_false] at h
                cases h1 : aggregateFuel fuel (whereAreChildren node).1 node depth false anc2 with
                | none => rw [h1] at h; simp at h
                | some v1 =>
                    rw [h1] at h
                    simp only [Option.some_bind] at h
                    cases h2 : aggregateFuel fuel (whereAreChildren node).2 node (depth + 1) false anc2 with
                    | none => rw [h2] at h; simp at h
                    | some v2 =>
                        rw [h2] at h
                        simp only [Option.some_bind] at h
                        have hv1 := ihAgg _ _ _ _ _ _ h1
                        have hv2 := ihAgg _ _ _ _ _ _ h2
                        rw [Option.some_inj] at h
                        omega
      · intro l parentNode localDepth topLevel anc s h
        cases l with
        | nil =>
            simp only [aggregateFuel] at h
            rw [Option.some_inj] at h
            omega
        | cons child rest =>
            simp only [aggregateFuel] at h
            cases h1 : nodeCostFuel fuel child parentNode topLevel localDepth anc with
            | none => rw [h1] at h; simp at h
            | some v1 =>
                rw [h1] at h
                simp only [Option.some_bind] at h
                cases h0 : resolveInnerName child anc with
                | none => rw [h0] at h; simp at h
                | some u =>
                    rw [h0] at h
                    simp only [Option.some_bind] at h
                    cases h2 : aggregateFuel fuel rest parentNode localDepth topLevel anc with
                    | none => rw [h2] at h; simp at h
                    | some v2 =>
                        rw [h2] at h
                        simp only [Option.some_bind] at h
                        have hv1 := ihNode _ _ _ _ _ _ h1
                        have hv2 := ihAgg _ _ _ _ _ _ h2
                        rw [Option.some_inj] at h
                        omega

/-- Every score `nodeCost` returns is non-negative. -/
theorem nodeCost_nonneg (node parent : Node) (topLevel : Bool) (depth : Nat)
    (anc : List String) (s : Int) (h : nodeCost node parent topLevel depth anc = some s) :
    0 ≤ s := by
  apply (nodeCostFuel_nonneg (3 * Node.w node + 1)).1 node parent topLevel depth anc s
  rw [nodeCostFuel_agrees _ _ _ _ _ _ (le_refl _)]
  exact h

theorem sumTopChildScores_nonneg (l : List Node) (file : Node) (s : Int)
    (h : sumTopChildScores l file = some s) : 0 ≤ s := by
  induction l generalizing s with
  | nil =>
      simp only [sumTopChildScores] at h
      rw [Option.some_inj] at h
      omega
  | cons elem rest ih =>
      simp only [sumTopChildScores] at h
      cases h1 : nodeCost elem file true 0 [] with
      | none => rw [h1] at h; simp at h
      | some v1 =>
          rw [h1] at h
          simp only [Option.some_bind] at h
          cases h2 : sumTopChildScores rest file with
          | none => rw [h2] at h; simp at h
          | some v2 =>
              rw [h2] at h
              simp only [Option.some_bind] at h
              have hv1 := nodeCost_nonneg _ _ _ _ _ _ h1
              have hv2 := ih _ h2
              rw [Option.some_inj] at h
              omega

/-- Every score `fileCost` returns is non-negative. -/
theorem fileCost_nonneg (file : Node) (s : Int) (h : fileCost file = some s) : 0 ≤ s :=
  sumTopChildScores_nonneg (childrenTok file) file s h

/-- One-step unfolding of `nodeCost` at a top-level call: both buckets stay
at the current depth; `same` keeps `topLevel`, `below` clears it. -/
theorem nodeCost_unfold_true (node parent : Node) (depth : Nat) (anc : List String) :
    nodeCost node parent true depth anc
      = (maybeAddNodeToNamedAncestors node anc).bind (fun anc2 =>
          ((aggregateScoreForChildren (whereAreChildren node).1 node depth true anc2).bind
            (fun s1 =>
              (aggregateScoreForChildren (whereAreChildren node).2 node depth false anc2).bind
                (fun s2 => some (s1 + s2)))).bind (fun childrenScore =>
            some (inherentIncrement node parent anc + nestingIncrement node parent depth
              + childrenScore))) := by
  rw [nodeCost]
  simp

/-- One-step unfolding of `nodeCost` below the top level: the `same` bucket
stays at the current depth and the `below` bucket moves to `depth + 1`. -/
theorem nodeCost_unfold_false (node parent : Node) (depth : Nat) (anc : List String) :
    nodeCost node parent false depth anc
      = (maybeAddNodeToNamedAncestors node anc).bind (fun anc2 =>
          ((aggregateScoreForChildren (whereAreChildren node).1 node depth false anc2).bind
            (fun s1 =>
              (aggregateScoreForChildren (whereAreChildren node).2 node (depth + 1) false
                  anc2).bind (fun s2 => some (s1 + s2)))).bind (fun childrenScore =>
            some (inherentIncrement node parent anc + nestingIncrement node parent depth
              + childrenScore))) := by
  rw [nodeCost]
  simp

/-- An identifier node scores 0 whatever the context. -/
theorem nodeCost_ident (s : String) (p : Node) (tl : Bool) (d : Nat) (anc : List String) :
    nodeCost (.ident s) p tl d anc = some 0 := by
  cases tl <;>
    first
      | rw [nodeCost_unfold_false]
      | rw [nodeCost_unfold_true]
  all_goals
    simp [maybeAddNodeToNamedAncestors, isNamedDeclarationOfContainer, isFunctionNode,
      isFunctionDeclaration, isFunctionExpression, isArrowFunction, isMethodDeclaration,
      whereAreChildren, aggregateScoreForChildren, inherentIncrement, nestingIncrement,
      isCatchClause, isConditionalExpression, isDoStatement, isForInStatement,
      isForOfStatement, isForStatement, isSwitchStatement, isWhileStatement,
      isBreakOrContinueToLabel, isBinaryExpression, isCallExpression, isIfStatement]

theorem nestingIncrement_binary (l r : Node) (op : SynKind) (p : Node) (d : Nat) :
    nestingIncrement (.binaryExpr l op r) p d = 0 := by
  simp [nestingIncrement, isCatchClause, isConditionalExpression, isDoStatement,
    isForInStatement, isForOfStatement, isForStatement, isSwitchStatement,
    isWhileStatement, isIfStatement]

theorem childKindAt_binary (l r : Node) (op : SynKind) :
    childKindAt (.binaryExpr l op r) 1 = some op := rfl

theorem inherentIncrement_binary (l r : Node) (op : SynKind) (q : Node) (anc : List String) :
    inherentIncrement (.binaryExpr l op r) q anc
      = if childKindAt q 1 ≠ some op then 1 else 0 := by
  simp only [inherentIncrement, isCatchClause, isConditionalExpression, isDoStatement,
    isForInStatement, isForOfStatement, isForStatement, isSwitchStatement,
    isWhileStatement, isBreakOrContinueToLabel, isBinaryExpression, isCallExpression,
    isIfStatement, childKindAt_binary, Bool.or_self, Bool.or_false, Bool.false_or,
    Bool.true_and, decide_eq_true_eq, if_false, Bool.false_eq_true]

theorem aggregate_binPair (acc : Node) (y : String) (nodeB : Node) (ld : Nat) (tl2 : Bool)
    (anc : List String)
    (h0 : nodeCost acc nodeB tl2 ld anc = some 0)
    (hres : resolveInnerName acc anc = some ()) :
    aggregateScoreForChildren [acc, .ident y] nodeB ld tl2 anc = some 0 := by
  simp only [aggregateScoreForChildren]
  rw [h0, hres, nodeCost_ident]
  simp [aggregateScoreForChildren, resolveInnerName, isFunctionNode, isFunctionDeclaration,
    isFunctionExpression, isArrowFunction, isMethodDeclaration, isClassDeclaration,
    isModuleDeclaration]

theorem binChainStep (acc : Node) (y : String)
    (hacc0 : ∀ q tl d anc, childKindAt q 1 = some SynKind.ampersandAmpersandToken →
      nodeCost acc q tl d anc = some 0)
    (haccres : ∀ anc, resolveInnerName acc anc = some ()) :
    (∀ q tl d anc, childKindAt q 1 = some SynKind.ampersandAmpersandToken →
        nodeCost (.binaryExpr acc .ampersandAmpersandToken (.ident y)) q tl d anc = some 0)
    ∧ (∀ q tl d anc, childKindAt q 1 ≠ some SynKind.ampersandAmpersandToken →
        nodeCost (.binaryExpr acc .ampersandAmpersandToken (.ident y)) q tl d anc = some 1) := by
  have hma : ∀ anc : List String,
      maybeAddNodeToNamedAncestors (.binaryExpr acc .ampersandAmpersandToken (.ident y)) anc
        = some anc := fun _ => rfl
  have hagg : ∀ d2 tl2 anc2,
      aggregateScoreForChildren [acc, Node.ident y]
          (.binaryExpr acc .ampersandAmpersandToken (.ident y)) d2 tl2 anc2 = some 0 := by
    intro d2 tl2 anc2
    exact aggregate_binPair acc y _ d2 tl2 anc2
      (hacc0 _ tl2 d2 anc2 (childKindAt_binary acc (.ident y) _))
      (haccres anc2)
  constructor
  · intro q tl d anc hq
    cases tl
    case false =>
      rw [nodeCost_unfold_false, hma]
      simp only [Option.some_bind, whereAreChildren]
      rw [hagg]
      simp only [Option.some_bind, aggregateScoreForChildren]
      rw [inherentIncrement_binary, nestingIncrement_binary]
      rw [if_neg (by simp [hq])]
      norm_num
    case true =>
      rw [nodeCost_unfold_true, hma]
      simp only [Option.some_bind, whereAreChildren]
      rw [hagg]
      simp only [Option.some_bind, aggregateScoreForChildren]
      rw [inherentIncrement_binary, nestingIncrement_binary]
      rw [if_neg (by simp [hq])]
      norm_num
  · intro q tl d anc hq
    cases tl
    case false =>
      rw [nodeCost_unfold_false, hma]
      simp only [Option.some_bind, whereAreChildren]
      rw [hagg]
      simp only [Option.some_bind, aggregateScoreForChildren]
      rw [inherentIncrement_binary, nestingIncrement_binary]
      rw [if_pos hq]
      norm_num
    case true =>
      rw [nodeCost_unfold_true, hma]
      simp only [Option.some_bind, whereAreChildren]
      rw [hagg]
      simp only [Option.some_bind, aggregateScoreForChildren]
      rw [inherentIncrement_binary, nestingIncrement_binary]
      rw [if_pos hq]
      norm_num

def andChainAux : Node → List String → Node
  | acc, [] => acc
  | acc, y :: ys => andChainAux (.binaryExpr acc .ampersandAmpersandToken (.ident y)) ys

def andChain (first : String) (rest : List String) : Node :=
  andChainAux (.ident first) rest

theorem andChainAux_props : ∀ (rest : List String) (acc : Node),
    (∀ q tl d anc, childKindAt q 1 = some SynKind.ampersandAmpersandToken →
      nodeCost acc q tl d anc = some 0) →
    (∀ anc, resolveInnerName acc anc = some ()) →
    (∀ q tl d anc, childKindAt q 1 ≠ some SynKind.ampersandAmpersandToken →
      nodeCost acc q tl d anc = some 1) →
    (∀ q tl d anc, childKindAt q 1 = some SynKind.ampersandAmpersandToken →
      nodeCost (andChainAux acc rest) q tl d anc = some 0)
    ∧ (∀ q tl d anc, childKindAt q 1 ≠ some SynKind.ampersandAmpersandToken →
      nodeCost (andChainAux acc rest) q tl d anc = some 1) := by
  intro rest
  induction rest with
  | nil =>
      intro acc h0 hres h1
      exact ⟨h0, h1⟩
  | cons z rest ih =>
      intro acc h0 hres h1
      have step := binChainStep acc z h0 hres
      exact ih (.binaryExpr acc .ampersandAmpersandToken (.ident z)) step.1 (fun _ => rfl)
        step.2

theorem andChain_scores_one (first y : String) (rest : List String) (p : Node) (tl : Bool)
    (d : Nat) (anc : List String)
    (h : childKindAt p 1 ≠ some SynKind.ampersandAmpersandToken) :
    nodeCost (andChain first (y :: rest)) p tl d anc = some 1 := by
  have base := binChainStep (.ident first) y
    (fun q tl2 d2 anc2 _ => nodeCost_ident first q tl2 d2 anc2)
    (fun _ => rfl)
  exact (andChainAux_props rest (.binaryExpr (.ident first) .ampersandAmpersandToken
    (.ident y)) base.1 (fun _ => rfl) base.2).2 p tl d anc h

theorem getCalledFunctionName_call_ident (f : String) (args : List Node) :
    getCalledFunctionName (.callExpr (.ident f) args) = f := rfl

theorem nestingIncrement_call (callee : Node) (args : List Node) (p : Node) (d : Nat) :
    nestingIncrement (.callExpr callee args) p d = 0 := by
  simp [nestingIncrement, isCatchClause, isConditionalExpression, isDoStatement,
    isForInStatement, isForOfStatement, isForStatement, isSwitchStatement,
    isWhileStatement, isIfStatement]

theorem inherentIncrement_call_ident (f : String) (p : Node) (anc : List String) :
    inherentIncrement (.callExpr (.ident f) []) p anc
      = if anc.contains f then 1 else 0 := by
  simp only [inherentIncrement, isCatchClause, isConditionalExpression, isDoStatement,
    isForInStatement, isForOfStatement, isForStatement, isSwitchStatement,
    isWhileStatement, isBreakOrContinueToLabel, isBinaryExpression, isCallExpression,
    isIfStatement, getCalledFunctionName_call_ident, Bool.or_self, Bool.or_false,
    Bool.false_or, Bool.false_and, Bool.false_eq_true, if_false, if_true]

theorem nodeCost_call_ident (f : String) (p : Node) (tl : Bool) (d : Nat)
    (anc : List String) :
    nodeCost (.callExpr (.ident f) []) p tl d anc
      = some (if anc.contains f then 1 else 0) := by
  have hagg : ∀ d2 tl2,
      aggregateScoreForChildren [Node.ident f] (.callExpr (.ident f) []) d2 tl2 anc
        = some 0 := by
    intro d2 tl2
    simp only [aggregateScoreForChildren]
    rw [nodeCost_ident]
    simp [resolveInnerName, isFunctionNode, isFunctionDeclaration, isFunctionExpression,
      isArrowFunction, isMethodDeclaration, isClassDeclaration, isModuleDeclaration,
      aggregateScoreForChildren]
  cases tl
  case false =>
    rw [nodeCost_unfold_false]
    have hma : maybeAddNodeToNamedAncestors (.callExpr (.ident f) []) anc = some anc := rfl
    rw [hma]
    simp only [Option.some_bind, whereAreChildren]
    rw [hagg]
    simp only [Option.some_bind, aggregateScoreForChildren]
    rw [inherentIncrement_call_ident, nestingIncrement_call]
    cases hc : anc.contains f <;> simp [hc]
  case true =>
    rw [nodeCost_unfold_true]
    have hma : maybeAddNodeToNamedAncestors (.callExpr (.ident f) []) anc = some anc := rfl
    rw [hma]
    simp only [Option.some_bind, whereAreChildren]
    rw [hagg]
    simp only [Option.some_bind, aggregateScoreForChildren]
    rw [inherentIncrement_call_ident, nestingIncrement_call]
    cases hc : anc.contains f <;> simp [hc]

theorem nestingIncrement_block (ss : List Node) (p : Node) (d : Nat) :
    nestingIncrement (.block ss) p d = 0 := by
  simp [nestingIncrement, isCatchClause, isConditionalExpression, isDoStatement,
    isForInStatement, isForOfStatement, isForStatement, isSwitchStatement,
    isWhileStatement, isIfStatement]

theorem nestingIncrement_propertyAccess (o : Node) (s : String) (p : Node) (d : Nat) :
    nestingIncrement (.propertyAccess o s) p d = 0 := by
  simp [nestingIncrement, isCatchClause, isConditionalExpression, isDoStatement,
    isForInStatement, isForOfStatement, isForStatement, isSwitchStatement,
    isWhileStatement, isIfStatement]

theorem aggregate_single (c pn : Node) (ld : Nat) (tl : Bool) (anc : List String)
    (h : nodeCost c pn tl ld anc = some 0) (hres : resolveInnerName c anc = some ()) :
    aggregateScoreForChildren [c] pn ld tl anc = some 0 := by
  simp only [aggregateScoreForChildren]
  rw [h, hres]
  simp [aggregateScoreForChildren]

theorem nodeCost_block_nil (p : Node) (tl : Bool) (d : Nat) (anc : List String) :
    nodeCost (.block []) p tl d anc = some 0 := by
  have hinh : inherentIncrement (.block []) p anc = 0 := rfl
  cases tl
  case false =>
    rw [nodeCost_unfold_false]
    have hma : maybeAddNodeToNamedAncestors (.block []) anc = some anc := rfl
    rw [hma]
    simp only [Option.some_bind, whereAreChildren]
    simp only [aggregateScoreForChildren, Option.some_bind]
    rw [hinh, nestingIncrement_block]
    norm_num
  case true =>
    rw [nodeCost_unfold_true]
    have hma : maybeAddNodeToNamedAncestors (.block []) anc = some anc := rfl
    rw [hma]
    simp only [Option.some_bind, whereAreChildren]
    simp only [aggregateScoreForChildren, Option.some_bind]
    rw [hinh, nestingIncrement_block]
    norm_num

theorem nodeCost_ifNested (p : Node) (tl : Bool) (anc : List String)
    (h : isIfStatement p = false) :
    nodeCost (.ifStmt (.ident "b") (.block []) none) p tl 1 anc = some 2 := by
  have hinh : inherentIncrement (.ifStmt (.ident "b") (.block []) none) p anc = 1 := rfl
  have hnode : isIfStatement (.ifStmt (.ident "b") (.block []) none) = true := rfl
  have hnest : nestingIncrement (.ifStmt (.ident "b") (.block []) none) p 1 = 1 := by
    simp [nestingIncrement, isCatchClause, isConditionalExpression, isDoStatement,
      isForInStatement, isForOfStatement, isForStatement, isSwitchStatement,
      isWhileStatement, hnode, h]
  cases tl
  case false =>
    rw [nodeCost_unfold_false]
    have hma : maybeAddNodeToNamedAncestors (.ifStmt (.ident "b") (.block []) none) anc
        = some anc := rfl
    rw [hma]
    simp only [Option.some_bind, whereAreChildren, Option.toList]
    rw [aggregate_single _ _ _ _ _ (nodeCost_ident "b" _ false 1 anc) rfl,
      aggregate_single _ _ _ _ _ (nodeCost_block_nil _ false 2 anc) rfl]
    simp only [Option.some_bind]
    rw [hinh, hnest]
    norm_num
  case true =>
    rw [nodeCost_unfold_true]
    have hma : maybeAddNodeToNamedAncestors (.ifStmt (.ident "b") (.block []) none) anc
        = some anc := rfl
    rw [hma]
    simp only [Option.some_bind, whereAreChildren, Option.toList]
    rw [aggregate_single _ _ _ _ _ (nodeCost_ident "b" _ true 1 anc) rfl,
      aggregate_single _ _ _ _ _ (nodeCost_block_nil _ false 1 anc) rfl]
    simp only [Option.some_bind]
    rw [hinh, hnest]
    norm_num

theorem nodeCost_propertyAccess_obj (p : Node) (tl : Bool) (d : Nat) (anc : List String) :
    nodeCost (.propertyAccess (.ident "obj") "m") p tl d anc = some 0 := by
  have hinh : inherentIncrement (.propertyAccess (.ident "obj") "m") p anc = 0 := rfl
  have hagg : ∀ d2 tl2,
      aggregateScoreForChildren [Node.ident "obj", Node.ident "m"]
        (.propertyAccess (.ident "obj") "m") d2 tl2 anc = some 0 := by
    intro d2 tl2
    simp only [aggregateScoreForChildren]
    rw [nodeCost_ident, nodeCost_ident]
    simp [resolveInnerName, isFunctionNode, isFunctionDeclaration, isFunctionExpression,
      isArrowFunction, isMethodDeclaration, isClassDeclaration, isModuleDeclaration,
      aggregateScoreForChildren]
  cases tl
  case false =>
    rw [nodeCost_unfold_false]
    have hma : maybeAddNodeToNamedAncestors (.propertyAccess (.ident "obj") "m") anc
        = some anc := rfl
    rw [hma]
    simp only [Option.some_bind, whereAreChildren]
    rw [hagg]
    simp only [Option.some_bind, aggregateScoreForChildren]
    rw [hinh, nestingIncrement_propertyAccess]
    norm_num
  case true =>
    rw [nodeCost_unfold_true]
    have hma : maybeAddNodeToNamedAncestors (.propertyAccess (.ident "obj") "m") anc
        = some anc := rfl
    rw [hma]
    simp only [Option.some_bind, whereAreChildren]
    rw [hagg]
    simp only [Option.some_bind, aggregateScoreForChildren]
    rw [hinh, nestingIncrement_propertyAccess]
    norm_num

/-- General form of the call-expression inherent increment: 1 exactly when
the resolved callee name is contained in the named-ancestor context. -/
theorem inherentIncrement_call (callee : Node) (args : List Node) (p : Node)
    (anc : List String) :
    inherentIncrement (.callExpr callee args) p anc
      = if anc.contains (getCalledFunctionName (.callExpr callee args)) then 1 else 0 := by
  simp only [inherentIncrement, isCatchClause, isConditionalExpression, isDoStatement,
    isForInStatement, isForOfStatement, isForStatement, isSwitchStatement,
    isWhileStatement, isBreakOrContinueToLabel, isBinaryExpression, isCallExpression,
    isIfStatement, Bool.or_self, Bool.or_false, Bool.false_or, Bool.false_and,
    Bool.false_eq_true, if_false, if_true]

def wrapParens : Nat → Node → Node
  | 0, e => e
  | k + 1, e => .parenExpr (wrapParens k e)

theorem getIdentifierDespiteBrackets_wrap (k : Nat) (name : String) :
    getIdentifierDespiteBrackets (wrapParens k (.ident name)) = some name := by
  induction k with
  | zero => rfl
  | succ k ih => simp [wrapParens, getIdentifierDespiteBrackets, ih]

/-! Concrete example trees used by the claims. -/

def emptyBlock : Node := Node.block []

def ifElseIfElseChain : Node :=
  .ifStmt (.ident "a") emptyBlock (some (.ifStmt (.ident "b") emptyBlock (some emptyBlock)))

def topLevelBelowExample : Node :=
  .ifStmt (.ident "a") (.whileStmt (.ident "b") emptyBlock) none

def aAndBOrC : Node :=
  .binaryExpr (.binaryExpr (.ident "a") .ampersandAmpersandToken (.ident "b"))
    .barBarToken (.ident "c")

def factRecursiveFile : Node :=
  .sourceFile
    [.functionDecl "fact" (.block [.exprStmt (.callExpr (.ident "fact") [.ident "n"])])]

def factUnrelatedFile : Node :=
  .sourceFile
    [.functionDecl "fact" (.block [.exprStmt (.callExpr (.ident "other") [.ident "n"])])]

def doWhileFile : Node := .sourceFile [.doStmt emptyBlock (.ident "c")]

def ifElseFile : Node := .sourceFile [.ifStmt (.ident "a") emptyBlock (some emptyBlock)]

/-- C1 counterexample: the `if (a) {} else if (b) {} else {}` chain at depth
0 does not score 2 — the engine also charges the `else if`'s own `if`. -/
theorem claimC1_counterexample :
    nodeCost ifElseIfElseChain (.sourceFile [ifElseIfElseChain]) true 0 [] ≠ some 2
    ∧ nodeCost ifElseIfElseChain (.sourceFile [ifElseIfElseChain]) false 0 [] ≠ some 2 := by
  constructor <;>
    (rw [← nodeCostFuel_agrees 200 _ _ _ _ _ (by decide)]; decide)

/-- C1 (amended): scoring `if (a) {} else if (b) {} else {}` at depth 0 with
`nodeCost` yields exactly 3: one for the leading `if`, one for the `else
if`'s own `if` (the engine increments for `if` and `else if` alike), and one
for the solo terminating `else`; only the extra solo-`else` bonus is skipped
for the `else if` link. -/
theorem claimC1_amended :
    ∀ tl : Bool,
      nodeCost ifElseIfElseChain (.sourceFile [ifElseIfElseChain]) tl 0 [] = some 3 := by
  intro tl
  cases tl <;> (rw [← nodeCostFuel_agrees 200 _ _ _ _ _ (by decide)]; decide)

/-- C2 counterexample: at the top level the `below` bucket stays at the
current depth — the while statement in the `if`'s branch receives no nesting
increment, so the tree scores 2, not the 3 the claimed `depth + 1` rule
would give. -/
theorem claimC2_counterexample :
    nodeCost topLevelBelowExample (.sourceFile [topLevelBelowExample]) true 0 [] = some 2
    ∧ nodeCost topLevelBelowExample (.sourceFile [topLevelBelowExample]) true 0 []
        ≠ some 3 := by
  constructor <;>
    (rw [← nodeCostFuel_agrees 200 _ _ _ _ _ (by decide)]; decide)

/-- C2 (amended): `same`-bucket children are scored at the current depth and
`below`-bucket children at `depth + 1` when `topLevel` is false; on the very
first call (`topLevel = true`) the `same` bucket keeps `topLevel = true` and
the `below` bucket flips it to false, but both buckets stay at the unchanged
depth. -/
theorem claimC2_amended :
    ∀ (node parent : Node) (depth : Nat) (anc : List String),
      (nodeCost node parent true depth anc
        = (maybeAddNodeToNamedAncestors node anc).bind (fun anc2 =>
            ((aggregateScoreForChildren (whereAreChildren node).1 node depth true anc2).bind
              (fun s1 =>
                (aggregateScoreForChildren (whereAreChildren node).2 node depth false
                    anc2).bind (fun s2 => some (s1 + s2)))).bind (fun childrenScore =>
              some (inherentIncrement node parent anc + nestingIncrement node parent depth
                + childrenScore))))
      ∧ (nodeCost node parent false depth anc
        = (maybeAddNodeToNamedAncestors node anc).bind (fun anc2 =>
            ((aggregateScoreForChildren (whereAreChildren node).1 node depth false anc2).bind
              (fun s1 =>
                (aggregateScoreForChildren (whereAreChildren node).2 node (depth + 1) false
                    anc2).bind (fun s2 => some (s1 + s2)))).bind (fun childrenScore =>
              some (inherentIncrement node parent anc + nestingIncrement node parent depth
                + childrenScore)))) :=
  fun node parent depth anc =>
    ⟨nodeCost_unfold_true node parent depth anc, nodeCost_unfold_false node parent depth anc⟩

/-- C3: when `depth > 0` the nesting increment equals `depth` for catch
clauses, conditional expressions, do/for-in/for-of/for/switch/while
statements, and an `if` whose parent is not itself an `if`; consequently an
`if` with no `else` scores exactly 1 at depth 0, the same `if` at depth 1
under a non-`if` parent scores exactly 2, and nested inside another `if`'s
body it brings the whole tree to 1 + 2 = 3. -/
theorem claimC3 :
    (∀ (n p : Node) (d : Nat), 0 < d →
      (isCatchClause n || isConditionalExpression n || isDoStatement n
        || isForInStatement n || isForOfStatement n || isForStatement n
        || isSwitchStatement n || isWhileStatement n
        || (isIfStatement n && !(isIfStatement p))) = true →
      nestingIncrement n p d = (d : Int))
    ∧ (∀ (p : Node) (tl : Bool) (anc : List String),
        nodeCost (.ifStmt (.ident "a") emptyBlock none) p tl 0 anc = some 1)
    ∧ (∀ (p : Node) (tl : Bool) (anc : List String), isIfStatement p = false →
        nodeCost (.ifStmt (.ident "b") emptyBlock none) p tl 1 anc = some 2)
    ∧ (∀ (p : Node) (anc : List String),
        nodeCost (.ifStmt (.ident "a") (.block [.ifStmt (.ident "b") emptyBlock none]) none)
          p false 0 anc = some 3) := by
  refine ⟨?_, ?_, ?_, ?_⟩
  · intro n p d hd hcond
    unfold nestingIncrement
    rw [if_pos hd, if_pos hcond]
  · intro p tl anc
    cases tl <;> (rw [← nodeCostFuel_agrees 60 _ _ _ _ _ (by decide)]; rfl)
  · exact fun p tl anc h => nodeCost_ifNested p tl anc h
  · intro p anc
    rw [← nodeCostFuel_agrees 100 _ _ _ _ _ (by decide)]
    rfl

/-- C3 witness: the nesting increment and the depth-1 `if` example at
concrete inputs. -/
theorem claimC3_witness :
    ((0 : Nat) < 2
      ∧ nestingIncrement (.whileStmt (.ident "c") emptyBlock) emptyBlock 2 = 2)
    ∧ (isIfStatement emptyBlock = false
      ∧ nodeCost (.ifStmt (.ident "b") emptyBlock none) emptyBlock true 1 [] = some 2) :=
  ⟨⟨by decide, claimC3.1 _ _ 2 (by decide) (by decide)⟩,
    ⟨by decide, claimC3.2.2.1 emptyBlock true [] (by decide)⟩⟩

/-- C4: a binary expression adds 1 exactly when its parent's child-at-1 kind
(the parent's operator, when the parent is a binary expression) differs from
its own operator kind; hence a same-operator run `a && b && … ` scores 1 in
total regardless of its length, while `a && b || c` scores 2. -/
theorem claimC4 :
    (∀ (l r : Node) (op : SynKind) (q : Node) (anc : List String),
      inherentIncrement (.binaryExpr l op r) q anc
        = if childKindAt q 1 ≠ some op then 1 else 0)
    ∧ (∀ (first y : String) (rest : List String) (p : Node) (tl : Bool) (d : Nat)
        (anc : List String),
      childKindAt p 1 ≠ some SynKind.ampersandAmpersandToken →
      nodeCost (andChain first (y :: rest)) p tl d anc = some 1)
    ∧ (∀ tl : Bool, nodeCost aAndBOrC (.exprStmt aAndBOrC) tl 0 [] = some 2) := by
  refine ⟨?_, ?_, ?_⟩
  · exact fun l r op q anc => inherentIncrement_binary l r op q anc
  · exact fun first y rest p tl d anc h => andChain_scores_one first y rest p tl d anc h
  · intro tl
    cases tl <;> (rw [← nodeCostFuel_agrees 100 _ _ _ _ _ (by decide)]; rfl)

/-- C4 witness: a three-element `&&` run under a non-`&&` parent scores 1. -/
theorem claimC4_witness :
    childKindAt (Node.exprStmt (.ident "x")) 1 ≠ some SynKind.ampersandAmpersandToken
    ∧ nodeCost (andChain "a" ["b", "c"]) (.exprStmt (.ident "x")) true 0 [] = some 1 :=
  ⟨by decide, claimC4.2.1 "a" "b" ["c"] (.exprStmt (.ident "x")) true 0 [] (by decide)⟩

/-- C5: a call expression adds exactly 1 when the resolved target name is in
the named-ancestor context and 0 otherwise (never more than 1 per call
site); a file whose function `fact` calls `fact(...)` scores 1 for the
recursion increment, and the same file calling an unrelated name scores
0. -/
theorem claimC5 :
    (∀ (f : String) (p : Node) (tl : Bool) (d : Nat) (anc : List String),
      nodeCost (.callExpr (.ident f) []) p tl d anc
        = some (if anc.contains f then 1 else 0))
    ∧ fileCost factRecursiveFile = some 1
    ∧ fileCost factUnrelatedFile = some 0 := by
  refine ⟨nodeCost_call_ident, ?_, ?_⟩ <;>
    (rw [← fileCostFuel_agrees 400 _ (by decide)]; decide)

/-- C6: every score `nodeCost` or `fileCost` returns is a non-negative
integer, and both are deterministic functions of the tree. -/
theorem claimC6 :
    (∀ (node parent : Node) (topLevel : Bool) (depth : Nat) (anc : List String) (s : Int),
      nodeCost node parent topLevel depth anc = some s → 0 ≤ s)
    ∧ (∀ (file : Node) (s : Int), fileCost file = some s → 0 ≤ s)
    ∧ (∀ (node parent : Node) (topLevel : Bool) (depth : Nat) (anc : List String),
      nodeCost node parent topLevel depth anc = nodeCost node parent topLevel depth anc)
    ∧ (∀ file : Node, fileCost file = fileCost file) :=
  ⟨nodeCost_nonneg, fileCost_nonneg, fun _ _ _ _ _ => rfl, fun _ => rfl⟩

/-- C6 witness: the do-while file scores 1, and 1 is non-negative. -/
theorem claimC6_witness : fileCost doWhileFile = some 1 ∧ (0 : Int) ≤ 1 := by
  have h : fileCost doWhileFile = some 1 := by
    rw [← fileCostFuel_agrees 300 _ (by decide)]
    decide
  exact ⟨h, claimC6.2.1 doWhileFile 1 h⟩

/-- C7: the two scoring engines are not extensionally equivalent: on a file
containing `do {} while (c)` the current engine scores 1 (do statements are
inherently costly) while the older class-based engine scores 0, and on a
file containing `if (a) {} else {}` they score 2 and 1 (no solo-`else`
increment in the older engine). -/
theorem claimC7 :
    fileCost doWhileFile = some 1
    ∧ calcFileCost doWhileFile = some 0
    ∧ fileCost doWhileFile ≠ calcFileCost doWhileFile
    ∧ fileCost ifElseFile = some 2
    ∧ calcFileCost ifElseFile = some 1
    ∧ fileCost ifElseFile ≠ calcFileCost ifElseFile := by
  have h1 : fileCost doWhileFile = some 1 := by
    rw [← fileCostFuel_agrees 300 _ (by decide)]; decide
  have h2 : calcFileCost doWhileFile = some 0 := by
    simp [calcFileCost, calcListScore, calcElemCostScore, oldNodeCostScore, oldIncludeAll,
      oldDoStatementCost, oldConditionalExpressionCost, oldIfStatementCost,
      oldSwitchStatementCost, oldWhileStatementCost, childrenTok, doWhileFile, emptyBlock,
      isCatchClause, isConditionalExpression, isDoStatement, isForInStatement,
      isForOfStatement, isForStatement, isSwitchStatement, isWhileStatement,
      isBreakOrContinueToLabel, isIfStatement, isArrowFunction, isFunctionDeclaration,
      isFunctionExpression, isMethodDeclaration, Option.some_bind]
  have h3 : fileCost ifElseFile = some 2 := by
    rw [← fileCostFuel_agrees 300 _ (by decide)]; decide
  have h4 : calcFileCost ifElseFile = some 1 := by
    simp [calcFileCost, calcListScore, calcElemCostScore, oldNodeCostScore, oldIncludeAll,
      oldDoStatementCost, oldConditionalExpressionCost, oldIfStatementCost,
      oldSwitchStatementCost, oldWhileStatementCost, childrenTok, ifElseFile, emptyBlock,
      isCatchClause, isConditionalExpression, isDoStatement, isForInStatement,
      isForOfStatement, isForStatement, isSwitchStatement, isWhileStatement,
      isBreakOrContinueToLabel, isIfStatement, isArrowFunction, isFunctionDeclaration,
      isFunctionExpression, isMethodDeclaration, Option.some_bind]
  refine ⟨h1, h2, ?_, h3, h4, ?_⟩
  · rw [h1, h2]; decide
  · rw [h3, h4]; decide

/-- C8: name resolution raises `UnreachableNodeState` (modelled as `none`)
exactly when a grammar-guaranteed identifier is absent: a method declaration
with no name and a module declaration with no identifier both raise, and
with the identifier present the name is returned. -/
theorem claimC8 :
    (∀ (nameOpt : Option String) (body : Node) (hint : Option String),
      (getFunctionNodeName (.methodDecl nameOpt body) hint = none ↔ nameOpt = none))
    ∧ (∀ (nameOpt : Option String) (body : Node), isIdentifier body = false →
      (getModuleDeclarationName (.moduleDecl nameOpt body) = none ↔ nameOpt = none))
    ∧ (∀ (n : String) (body : Node) (hint : Option String),
      getFunctionNodeName (.methodDecl (some n) body) hint = some n)
    ∧ (∀ (n : String) (body : Node),
      getModuleDeclarationName (.moduleDecl (some n) body) = some n) := by
  refine ⟨?_, ?_, ?_, ?_⟩
  · intro nameOpt body hint
    cases nameOpt <;> simp [getFunctionNodeName, getIdentifier]
  · intro nameOpt body h
    have ht : isIdentifier (Node.token SynKind.namespaceKeyword) = false := rfl
    cases nameOpt with
    | none => simp [getModuleDeclarationName, childrenTok, List.find?, ht, h]
    | some n =>
        have hi : isIdentifier (Node.ident n) = true := rfl
        simp [getModuleDeclarationName, childrenTok, List.find?, ht, hi, identText]
  · intro n body hint
    simp [getFunctionNodeName, getIdentifier]
  · intro n body
    have ht : isIdentifier (Node.token SynKind.namespaceKeyword) = false := rfl
    have hi : isIdentifier (Node.ident n) = true := rfl
    simp [getModuleDeclarationName, childrenTok, List.find?, ht, hi, identText]

/-- C8 witness: a module declaration with a block body and no identifier
raises. -/
theorem claimC8_witness :
    isIdentifier emptyBlock = false
    ∧ (getModuleDeclarationName (.moduleDecl none emptyBlock) = none
        ↔ (none : Option String) = none) :=
  ⟨by decide, claimC8.2.1 none emptyBlock (by decide)⟩

/-- C9: resolving a called name is invariant under redundant
parenthesization of an identifier callee: `(f)()`, `((f))()` and `f()` all
resolve to the identifier's text. -/
theorem claimC9 :
    ∀ (name : String) (k : Nat) (args args2 : List Node),
      getCalledFunctionName (.callExpr (wrapParens k (.ident name)) args)
          = getCalledFunctionName (.callExpr (.ident name) args2)
      ∧ getCalledFunctionName (.callExpr (wrapParens k (.ident name)) args) = name := by
  intro name k args args2
  have hcall : ∀ (callee : Node) (args3 : List Node),
      getCalledFunctionName (.callExpr callee args3)
        = (getIdentifierDespiteBrackets callee).getD "" := fun _ _ => rfl
  rw [hcall, hcall, getIdentifierDespiteBrackets_wrap]
  simp [getIdentifierDespiteBrackets]

/-- C10: an unresolvable call target (such as the property access `obj.m`)
makes `getCalledFunctionName` return the empty string instead of raising,
and such a call site gains no recursion increment in `nodeCost`; the
analogous unresolvable `new` target makes `getNewedConstructorName` raise
(`none`). -/
theorem claimC10 :
    (∀ (callee : Node) (args : List Node), getIdentifierDespiteBrackets callee = none →
      getCalledFunctionName (.callExpr callee args) = "")
    ∧ getIdentifierDespiteBrackets (.propertyAccess (.ident "obj") "m") = none
    ∧ (∀ (p : Node) (tl : Bool) (d : Nat) (anc : List String), anc.contains "" = false →
      nodeCost (.callExpr (.propertyAccess (.ident "obj") "m") []) p tl d anc = some 0)
    ∧ (∀ (callee : Node) (args : List Node), getIdentifierDespiteBrackets callee = none →
      getNewedConstructorName (.newExpr callee args) = none) := by
  refine ⟨?_, rfl, ?_, ?_⟩
  · intro callee args h
    have hc : getCalledFunctionName (.callExpr callee args)
        = (getIdentifierDespiteBrackets callee).getD "" := rfl
    rw [hc, h]
    rfl
  · intro p tl d anc h
    have hname : getCalledFunctionName
        (.callExpr (.propertyAccess (.ident "obj") "m") []) = "" := rfl
    have hinh : inherentIncrement (.callExpr (.propertyAccess (.ident "obj") "m") []) p anc
        = 0 := by
      rw [inherentIncrement_call, hname, h]
      simp
    have hagg : ∀ d2 tl2,
        aggregateScoreForChildren [Node.propertyAccess (.ident "obj") "m"]
          (.callExpr (.propertyAccess (.ident "obj") "m") []) d2 tl2 anc = some 0 :=
      fun d2 tl2 =>
        aggregate_single _ _ d2 tl2 anc (nodeCost_propertyAccess_obj _ tl2 d2 anc) rfl
    cases tl
    case false =>
      rw [nodeCost_unfold_false]
      have hma : maybeAddNodeToNamedAncestors
          (.callExpr (.propertyAccess (.ident "obj") "m") []) anc = some anc := rfl
      rw [hma]
      simp only [Option.some_bind, whereAreChildren]
      rw [hagg]
      simp only [Option.some_bind, aggregateScoreForChildren]
      rw [hinh, nestingIncrement_call]
      norm_num
    case true =>
      rw [nodeCost_unfold_true]
      have hma : maybeAddNodeToNamedAncestors
          (.callExpr (.propertyAccess (.ident "obj") "m") []) anc = some anc := rfl
      rw [hma]
      simp only [Option.some_bind, whereAreChildren]
      rw [hagg]
      simp only [Option.some_bind, aggregateScoreForChildren]
      rw [hinh, nestingIncrement_call]
      norm_num
  · intro callee args h
    have hn : getNewedConstructorName (.newExpr callee args)
        = getIdentifierDespiteBrackets callee := rfl
    rw [hn, h]

/-- C10 witness: the `obj.m()` call site at concrete inputs. -/
theorem claimC10_witness :
    getIdentifierDespiteBrackets (Node.propertyAccess (.ident "obj") "m") = none
    ∧ getCalledFunctionName (.callExpr (.propertyAccess (.ident "obj") "m") []) = ""
    ∧ nodeCost (.callExpr (.propertyAccess (.ident "obj") "m") []) emptyBlock true 0 []
        = some 0 :=
  ⟨by decide, claimC10.1 _ [] (by decide), claimC10.2.2.1 emptyBlock true 0 [] (by decide)⟩
